import Mathlib

/-!
Verification of the RAG chat server core (`src/packages/webapi/server.js`,
final variant, lines 528-668): PDF chunking, term-frequency retrieval,
per-session conversation memory and prompt assembly.

The JavaScript source is embedded shallowly:

* `String.prototype.split(/\s+/)` is modelled by `jsSplitWs`: splitting on
  maximal whitespace runs, with the JS artifacts (an empty token at the
  front when the string starts with whitespace, an empty token at the end
  when it ends with whitespace, `[""]` for the empty string).
* JS string truthiness (`if (currentChunk)`, `pdfText ? ...`) is modelled
  by explicit comparison with `""`, and `x || "default"` by an `Option`
  match plus the `""`-is-falsy case.
* Numbers are `Nat` (all quantities in play are non-negative counts and
  lengths; `.length` of the strings in play is the character count).
* The per-term counting in `retrieveRelevantContent` builds
  `new RegExp(term, 'gi')` in the source.  For terms free of regex
  metacharacters this is exactly case-insensitive non-overlapping literal
  substring counting, which is what `countOccur` implements (an empty
  pattern matches at every position, `length + 1` in total, as in JS).
  Terms containing metacharacters make the source diverge from
  literal-substring semantics; that divergence is recorded at claim C1.
* The external collaborators (filesystem, pdf parser, the model call and
  the langchain memory object) are parameters: the corpus is an
  `Option String` (`none` = file missing), the model call is a function
  `List ChatMessage → ModelResult`, and the langchain
  `BufferMemory`/`saveContext` pair is modelled from the spec as the
  session store `appendTurn`/`getHistory`.
-/

/-- JS `s.toLowerCase()`: lower-case the string character by character
(the ASCII letters; accentless text is unaffected by the Unicode cases). -/
def jsToLower (s : String) : String :=
  String.mk (s.data.map Char.toLower)

/-- Whitespace test for the JS regex class `\s` (the ASCII part: space,
tab, line feed, carriage return, vertical tab, form feed).  All
definitions below share this predicate. -/
def isWs (c : Char) : Bool :=
  c = ' ' || c = '\t' || c = '\n' || c = '\r' || c = '\x0b' || c = '\x0c'

/-- Worker for `jsSplitWs`.  The state is `some acc` while inside a token
(`acc` holds its characters reversed) and `none` while inside a run of
whitespace that has already emitted the preceding token. -/
def splitWsGo : List Char → Option (List Char) → List String
  | [], some acc => [String.mk acc.reverse]
  | [], none => [""]
  | c :: cs, some acc =>
      if isWs c then String.mk acc.reverse :: splitWsGo cs none
      else splitWsGo cs (some (c :: acc))
  | c :: cs, none =>
      if isWs c then splitWsGo cs none
      else splitWsGo cs (some [c])

/-- JS `s.split(/\s+/)`: tokens between maximal whitespace runs, with an
empty token at an end of the list when the string starts/ends with
whitespace, and `[""]` for `""`. -/
def jsSplitWs (s : String) : List String :=
  splitWsGo s.data (some [])

/-- The whitespace-delimited words of a string: the non-empty tokens of
`jsSplitWs`. -/
def wordsOf (s : String) : List String :=
  (jsSplitWs s).filter (fun t => t != "")

/-- Join a list of strings with single-space separators
(`["a","b"] ↦ "a b"`). -/
def joinSp : List String → String
  | [] => ""
  | [s] => s
  | s :: rest => s ++ " " ++ joinSp rest

/-- The punctuation set stripped from query tokens, from the source regex
`/[.,?!;:()"']/g` (server.js line 558). -/
def isPunct (c : Char) : Bool :=
  c = '.' || c = ',' || c = '?' || c = '!' || c = ';' || c = ':' ||
  c = '(' || c = ')' || c = '"' || c = '\''

/-- JS `term.replace(/[.,?!;:()"']/g, "")`: delete every punctuation
character. -/
def stripPunct (s : String) : String :=
  String.mk (s.data.filter (fun c => !isPunct c))

/-- Query normalization, from `retrieveRelevantContent` (server.js lines
556-558): lower-case, split on whitespace, keep tokens of length > 3,
then strip punctuation from each kept token.  Note the source order: the
length filter runs on the raw token, before punctuation stripping. -/
def normalizeQuery (query : String) : List String :=
  ((jsSplitWs (jsToLower query)).filter (fun t => 3 < t.length)).map stripPunct

/-- Number of non-overlapping leftmost occurrences of the pattern `pat`
in the haystack, scanning left to right and skipping the matched text, as
JS `hay.match(/pat/g)` does for a metacharacter-free pattern.  The fuel
argument (initialized to the haystack length, which dominates the number
of scan steps because every step consumes at least one character) only
makes the recursion structural; it never runs out. -/
def countOccurAux (pat : List Char) : List Char → Nat → Nat
  | _, 0 => 0
  | [], _ + 1 => 0
  | c :: rest, fuel + 1 =>
      if pat.isPrefixOf (c :: rest) then
        1 + countOccurAux pat (rest.drop (pat.length - 1)) fuel
      else countOccurAux pat rest fuel

/-- Case-carrying occurrence count; the empty pattern matches at every
position (`length + 1` matches), as JS `"ab".match(/(?:)/g)` has 3. -/
def countOccur (hay pat : String) : Nat :=
  if pat = "" then hay.length + 1
  else countOccurAux pat.data hay.data hay.data.length

/-- Score of one chunk against a term list, from server.js lines 560-568:
the chunk is lower-cased and each term is counted case-insensitively
(`'gi'` flags); the per-term counts are summed.  Literal substring
counting embeds the source for metacharacter-free terms (see C1). -/
def scoreChunk (chunk : String) (terms : List String) : Nat :=
  (terms.map (fun term => countOccur (jsToLower chunk) (jsToLower term))).sum

/-- `pdfChunks.map(chunk => ({chunk, score}))` (server.js lines 560-569). -/
def scoredChunks (terms chunks : List String) : List (String × Nat) :=
  chunks.map (fun c => (c, scoreChunk c terms))

/-- Insert a scored chunk into a list, before the first element whose
score is ≤ its own.  Folding this over the input from the right is a
stable descending sort: exactly the guarantee of the (stable) JS
`sort((a, b) => b.score - a.score)`. -/
def insertDesc (p : String × Nat) : List (String × Nat) → List (String × Nat)
  | [] => [p]
  | q :: qs => if q.2 ≤ p.2 then p :: q :: qs else q :: insertDesc p qs

/-- Stable sort by strictly decreasing score, ties in input order. -/
def sortByScoreDesc (l : List (String × Nat)) : List (String × Nat) :=
  l.foldr insertDesc []

/-- `.filter(score > 0).sort(desc).slice(0, 3)` (server.js lines 570-573),
keeping the scores. -/
def retrieveScored (terms chunks : List String) : List (String × Nat) :=
  (sortByScoreDesc ((scoredChunks terms chunks).filter
    (fun p => decide (0 < p.2)))).take 3

/-- `retrieveRelevantContent` (server.js lines 555-575), with the chunk
list passed explicitly instead of read from the module-level `pdfChunks`. -/
def retrieveRelevantContent (query : String) (chunks : List String) :
    List String :=
  let terms := normalizeQuery query
  if terms.isEmpty then []
  else (retrieveScored terms chunks).map (fun p => p.1)

/-- The chunking loop of `loadPDF` (server.js lines 541-550): greedily
pack words into a buffer; a word whose addition would push the buffer
past `maxSize` closes the buffer as a chunk and starts a new one.  The
length test always counts a separating space (`currentChunk + " " + word`)
while the append only inserts one when the buffer is non-empty (JS
truthiness of `currentChunk`), and the buffer is pushed unconditionally in
the else branch, even when empty. -/
def chunkAux (maxSize : Nat) : String → List String → List String
  | cur, [] => if cur = "" then [] else [cur]
  | cur, w :: ws =>
      if (cur ++ " " ++ w).length ≤ maxSize then
        chunkAux maxSize (cur ++ (if cur = "" then "" else " ") ++ w) ws
      else
        cur :: chunkAux maxSize w ws

/-- `chunk(text, maxSize)`: split the text on whitespace and pack the
words (server.js lines 542-551). -/
def chunk (text : String) (maxSize : Nat) : List String :=
  chunkAux maxSize "" (jsSplitWs text)

/-- `CHUNK_SIZE` (server.js line 533). -/
def CHUNK_SIZE : Nat := 800

/-- One chat message: a role (`"system"`, `"user"`, `"assistant"`) and its
content. -/
structure ChatMessage where
  role : String
  content : String
deriving DecidableEq, Repr

/-- The module-level mutable state of the server: the cached pdf text,
the chunk list and the per-session histories (`sessionMemories`). -/
structure ServerState where
  pdfText : Option String
  pdfChunks : List String
  sessions : List (String × List ChatMessage)
deriving DecidableEq, Repr

/-- The state at process start: nothing loaded, no sessions. -/
def initState : ServerState :=
  { pdfText := none, pdfChunks := [], sessions := [] }

/-- The load-and-chunk path of `loadPDF` (server.js lines 537-552): a
missing corpus (`corpus = none`, the `!fs.existsSync` branch) returns the
sentinel string and leaves the state alone; otherwise the text is cached
and its chunks appended to `pdfChunks`. -/
def loadPDFCore (corpus : Option String) (st : ServerState) :
    ServerState × String :=
  match corpus with
  | none => (st, "PDF not found.")
  | some text =>
      ({ st with pdfText := some text,
                 pdfChunks := st.pdfChunks ++ chunk text CHUNK_SIZE }, text)

/-- `loadPDF` (server.js lines 535-553): return the cached text when it is
truthy (non-null and non-empty), otherwise load. -/
def loadPDF (corpus : Option String) (st : ServerState) :
    ServerState × String :=
  match st.pdfText with
  | some t => if t = "" then loadPDFCore corpus st else (st, t)
  | none => loadPDFCore corpus st

/-- Modelled from the spec: `ConversationMemory.getHistory(sessionId)` —
the ordered turn history of a session, empty when the session is unknown.
The source holds this state in an external langchain `BufferMemory`
(server.js lines 582-593), whose code is not part of this repository. -/
def getHistory (sessions : List (String × List ChatMessage))
    (sid : String) : List ChatMessage :=
  match sessions.lookup sid with
  | some h => h
  | none => []

/-- Replace the history of `sid` (creating the entry when absent). -/
def updateSession : List (String × List ChatMessage) → String →
    List ChatMessage → List (String × List ChatMessage)
  | [], sid, h => [(sid, h)]
  | (k, v) :: rest, sid, h =>
      if k = sid then (sid, h) :: rest else (k, v) :: updateSession rest sid h

/-- Modelled from the spec: `ConversationMemory.appendTurn` — append a
user turn followed by an assistant turn to the session, creating the
session when absent.  The source delegates this to the external langchain
`memory.saveContext({input}, {output})` (server.js line 634). -/
def appendTurn (sessions : List (String × List ChatMessage))
    (sid userContent assistantContent : String) :
    List (String × List ChatMessage) :=
  updateSession sessions sid
    (getHistory sessions sid ++
      [⟨"user", userContent⟩, ⟨"assistant", assistantContent⟩])

/-- The request body fields the handler reads; `none` models an absent
(JSON `undefined`) field. -/
structure ChatRequest where
  message : String
  useRAG : Option Bool
  sessionId : Option String
deriving DecidableEq, Repr

/-- `req.body.useRAG === undefined ? true : req.body.useRAG`
(server.js line 607). -/
def effectiveUseRAG (req : ChatRequest) : Bool :=
  match req.useRAG with
  | none => true
  | some b => b

/-- `req.body.sessionId || "default"` (server.js line 608); the empty
string is falsy in JS and also falls back to `"default"`. -/
def effectiveSessionId (req : ChatRequest) : String :=
  match req.sessionId with
  | some s => if s = "" then "default" else s
  | none => "default"

/-- The grounded system-message content (server.js line 620), with the
retrieved sources joined by blank lines. -/
def ragGroundedContent (sources : List String) : String :=
  "You are a helpful assistant for Contoso Electronics. You must ONLY use the information provided below to answer.\n\n--- EMPLOYEE HANDBOOK EXCERPTS ---\n"
    ++ String.intercalate "\n\n" sources ++ "\n--- END OF EXCERPTS ---"

/-- The no-relevant-information system-message content
(server.js line 621). -/
def noRelevantInfoContent : String :=
  "You are a helpful assistant for Contoso Electronics. The excerpts do not contain relevant information for this question. Reply politely: \"I'm sorry, I don't know. The employee handbook does not contain information about that.\""

/-- The generic (RAG-off) system-message content (server.js line 625). -/
def genericAssistantContent : String :=
  "You are a helpful and knowledgeable assistant. Answer the user's questions concisely and informatively."

/-- The system-message branch of the handler (server.js lines 616-626). -/
def systemMessageFor (useRAG : Bool) (sources : List String) : ChatMessage :=
  if useRAG then
    if 0 < sources.length then ⟨"system", ragGroundedContent sources⟩
    else ⟨"system", noRelevantInfoContent⟩
  else ⟨"system", genericAssistantContent⟩

/-- The pre-invocation part of the `/chat` handler (server.js lines
606-632): resolve the flags, read the history, load the pdf and retrieve
sources when RAG is on, build the system message and the ordered message
list.  Returns the updated state, the message list and the sources that
will be reported. -/
def buildPrompt (corpus : Option String) (st : ServerState)
    (req : ChatRequest) : ServerState × List ChatMessage × List String :=
  let useRAG := effectiveUseRAG req
  let history := getHistory st.sessions (effectiveSessionId req)
  let st1 := if useRAG then (loadPDF corpus st).1 else st
  let sources :=
    if useRAG then retrieveRelevantContent req.message st1.pdfChunks else []
  (st1, systemMessageFor useRAG sources :: (history ++ [⟨"user", req.message⟩]),
    sources)

/-- Outcome of the downstream model invocation (`chatModel.invoke`):
either assistant text or a transport/model error. -/
inductive ModelResult where
  | ok : String → ModelResult
  | err : String → ModelResult
deriving DecidableEq, Repr

/-- The handler's observable result: final server state, HTTP status,
reply text and reported sources. -/
structure ChatOutcome where
  state : ServerState
  status : Nat
  reply : String
  sources : List String
deriving DecidableEq, Repr

/-- The `/chat` handler (server.js lines 605-644): build the prompt, call
the model; on success append the turn pair to the session and answer 200
with the reply and sources; on failure answer 500 and leave the session
store untouched. -/
def chatHandler (corpus : Option String)
    (invoke : List ChatMessage → ModelResult) (st : ServerState)
    (req : ChatRequest) : ChatOutcome :=
  let bp := buildPrompt corpus st req
  match invoke bp.2.1 with
  | ModelResult.ok content =>
      { state := { bp.1 with
          sessions := appendTurn bp.1.sessions (effectiveSessionId req)
            req.message content },
        status := 200, reply := content, sources := bp.2.2 }
  | ModelResult.err _ =>
      { state := bp.1, status := 500,
        reply := "Sorry, I encountered an error. Please try again.",
        sources := [] }

theorem wordsOf_empty : wordsOf "" = [] := rfl

theorem filter_splitWsGo_none (l : List Char) :
    (splitWsGo l none).filter (fun t => t != "") =
    (splitWsGo l (some [])).filter (fun t => t != "") := by
  cases l with
  | nil => rfl
  | cons c cs =>
      simp only [splitWsGo]
      by_cases h : isWs c
      · simp [h, List.filter_cons]
      · simp [h]

theorem filter_splitWsGo_append_space (l2 : List Char) :
    ∀ (l1 : List Char) (st : Option (List Char)),
    (splitWsGo (l1 ++ ' ' :: l2) st).filter (fun t => t != "") =
    (splitWsGo l1 st).filter (fun t => t != "") ++
      (splitWsGo l2 none).filter (fun t => t != "") := by
  intro l1
  induction l1 with
  | nil =>
      intro st
      cases st with
      | none => simp [splitWsGo, isWs]
      | some acc =>
          simp only [splitWsGo, List.nil_append]
          rw [show isWs ' ' = true from rfl]
          simp only [if_true, List.filter_cons]
          by_cases hacc : String.mk acc.reverse = "" <;> simp [hacc]
  | cons c cs ih =>
      intro st
      cases st with
      | none =>
          simp only [List.cons_append, splitWsGo]
          by_cases h : isWs c
          · simp only [h, if_true]
            exact ih none
          · simp only [h, if_false]
            exact ih (some [c])
      | some acc =>
          simp only [List.cons_append, splitWsGo]
          by_cases h : isWs c
          · simp only [h, if_true, List.filter_cons]
            by_cases hacc : String.mk acc.reverse = "" <;>
              simp [hacc, ih none]
          · simp only [h, if_false]
            exact ih (some (c :: acc))

theorem wordsOf_append_space (a b : String) :
    wordsOf (a ++ " " ++ b) = wordsOf a ++ wordsOf b := by
  unfold wordsOf jsSplitWs
  have h : (a ++ " " ++ b).data = a.data ++ ' ' :: b.data := by
    simp [String.data_append]
  rw [h, filter_splitWsGo_append_space, filter_splitWsGo_none]

theorem wordsOf_joinSp (l : List String) :
    wordsOf (joinSp l) = (l.map wordsOf).flatten := by
  induction l with
  | nil => simp [joinSp, wordsOf_empty]
  | cons s rest ih =>
      cases rest with
      | nil => simp [joinSp]
      | cons t ts =>
          rw [show joinSp (s :: t :: ts) = s ++ " " ++ joinSp (t :: ts) from rfl]
          rw [wordsOf_append_space, ih]
          simp


theorem empty_append_empty_append (w : String) : "" ++ "" ++ w = w := by
  cases w
  rfl

theorem chunkAux_wordsOf (ms : Nat) :
    ∀ (ws : List String) (cur : String),
    ((chunkAux ms cur ws).map wordsOf).flatten =
      wordsOf cur ++ (ws.map wordsOf).flatten := by
  intro ws
  induction ws with
  | nil =>
      intro cur
      by_cases h : cur = "" <;> simp [chunkAux, h, wordsOf_empty]
  | cons w ws ih =>
      intro cur
      simp only [chunkAux]
      by_cases hfit : (cur ++ " " ++ w).length ≤ ms
      · rw [if_pos hfit, ih]
        by_cases hcur : cur = ""
        · subst hcur
          rw [if_pos rfl, empty_append_empty_append]
          simp [wordsOf_empty]
        · rw [if_neg hcur, wordsOf_append_space]
          simp
      · rw [if_neg hfit]
        simp [ih]

theorem splitWsGo_noWs :
    ∀ (l : List Char) (st : Option (List Char)),
    (∀ acc, st = some acc → acc.all (fun c => !isWs c)) →
    ∀ t ∈ splitWsGo l st, t.data.all (fun c => !isWs c) := by
  intro l
  induction l with
  | nil =>
      intro st hst t ht
      cases st with
      | none =>
          simp only [splitWsGo, List.mem_singleton] at ht
          subst ht
          rfl
      | some acc =>
          simp only [splitWsGo, List.mem_singleton] at ht
          subst ht
          simpa using hst acc rfl
  | cons c cs ih =>
      intro st hst t ht
      cases st with
      | none =>
          simp only [splitWsGo] at ht
          by_cases h : isWs c
          · rw [if_pos h] at ht
            exact ih none (by simp) t ht
          · rw [if_neg h] at ht
            refine ih (some [c]) ?_ t ht
            intro acc hacc
            cases hacc
            simp [h]
      | some acc =>
          simp only [splitWsGo] at ht
          by_cases h : isWs c
          · rw [if_pos h] at ht
            rcases List.mem_cons.mp ht with h1 | h2
            · subst h1
              simpa using hst acc rfl
            · exact ih none (by simp) t h2
          · rw [if_neg h] at ht
            refine ih (some (c :: acc)) ?_ t ht
            intro acc' hacc'
            cases hacc'
            simp [h]
            simpa using hst acc rfl

theorem splitWsGo_all_nonWs :
    ∀ (l : List Char) (acc : List Char),
    l.all (fun c => !isWs c) = true →
    splitWsGo l (some acc) = [String.mk (acc.reverse ++ l)] := by
  intro l
  induction l with
  | nil => intro acc _; simp [splitWsGo]
  | cons c cs ih =>
      intro acc hl
      simp only [List.all_cons, Bool.and_eq_true, Bool.not_eq_true'] at hl
      simp only [splitWsGo, hl.1, if_false]
      rw [ih (c :: acc) (by simpa using hl.2)]
      simp

theorem jsSplitWs_of_noWs (t : String)
    (h : t.data.all (fun c => !isWs c) = true) : jsSplitWs t = [t] := by
  unfold jsSplitWs
  rw [splitWsGo_all_nonWs t.data [] h]
  cases t
  simp

theorem wordsOf_token (t : String)
    (h : t.data.all (fun c => !isWs c) = true) :
    wordsOf t = if t = "" then [] else [t] := by
  unfold wordsOf
  rw [jsSplitWs_of_noWs t h]
  by_cases he : t = "" <;> simp [he]

theorem flatten_map_wordsOf (toks : List String)
    (h : ∀ t ∈ toks, wordsOf t = if t = "" then [] else [t]) :
    (toks.map wordsOf).flatten = toks.filter (fun t => t != "") := by
  induction toks with
  | nil => rfl
  | cons t ts ih =>
      simp only [List.map_cons, List.flatten_cons, List.filter_cons]
      rw [h t (List.mem_cons_self t ts), ih (fun u hu => h u (List.mem_cons_of_mem t hu))]
      by_cases he : t = "" <;> simp [he]

theorem flatten_wordsOf_jsSplitWs (s : String) :
    ((jsSplitWs s).map wordsOf).flatten = wordsOf s := by
  rw [flatten_map_wordsOf]
  · rfl
  · intro t ht
    exact wordsOf_token t
      (splitWsGo_noWs s.data (some []) (by intro acc h; cases h; rfl) t ht)



theorem strLen_append (a b : String) : (a ++ b).length = a.length + b.length := by
  cases a with
  | mk la =>
      cases b with
      | mk lb =>
          show (la ++ lb).length = la.length + lb.length
          exact List.length_append la lb

theorem strLen_space : (" " : String).length = 1 := rfl

theorem chunkAux_mem_cases (ms : Nat) :
    ∀ (ws : List String) (cur c : String), c ∈ chunkAux ms cur ws →
    c = cur ∨ c ∈ ws ∨ c.length ≤ ms := by
  intro ws
  induction ws with
  | nil =>
      intro cur c hc
      by_cases h : cur = ""
      · simp [chunkAux, h] at hc
      · simp [chunkAux, h] at hc
        exact Or.inl hc
  | cons w ws ih =>
      intro cur c hc
      simp only [chunkAux] at hc
      by_cases hfit : (cur ++ " " ++ w).length ≤ ms
      · rw [if_pos hfit] at hc
        rcases ih _ c hc with h1 | h2 | h3
        · subst h1
          right; right
        
          by_cases hcur : cur = ""
          · rw [if_pos hcur]
            calc (cur ++ "" ++ w).length = cur.length + 0 + w.length := by
                  rw [strLen_append, strLen_append]; rfl
              _ ≤ (cur ++ " " ++ w).length := by
                  rw [strLen_append, strLen_append, strLen_space]; omega
              _ ≤ ms := hfit
          · rw [if_neg hcur]
            exact hfit
        · exact Or.inr (Or.inl (List.mem_cons_of_mem w h2))
        · exact Or.inr (Or.inr h3)
      · rw [if_neg hfit] at hc
        rcases List.mem_cons.mp hc with h1 | h2
        · exact Or.inl h1
        · rcases ih _ c h2 with h1 | h2' | h3
          · exact Or.inr (Or.inl (by simp [h1]))
          · exact Or.inr (Or.inl (List.mem_cons_of_mem w h2'))
          · exact Or.inr (Or.inr h3)

theorem chunkAux_self_mem (ms : Nat) :
    ∀ (ws : List String) (cur : String), ms < cur.length →
    cur ∈ chunkAux ms cur ws := by
  intro ws
  induction ws with
  | nil =>
      intro cur hcur
      have : cur ≠ "" := by
        intro h
        subst h
        simp [show ("" : String).length = 0 from rfl] at hcur
      simp [chunkAux, this]
  | cons w ws ih =>
      intro cur hcur
      have hfit : ¬ (cur ++ " " ++ w).length ≤ ms := by
        rw [strLen_append, strLen_append, strLen_space]
        omega
      simp only [chunkAux, if_neg hfit]
      exact List.mem_cons_self _ _

theorem chunkAux_overlong_mem (ms : Nat) :
    ∀ (ws : List String) (cur w : String), w ∈ ws → ms < w.length →
    w ∈ chunkAux ms cur ws := by
  intro ws
  induction ws with
  | nil => intro cur w hw; cases hw
  | cons v vs ih =>
      intro cur w hw hlen
      rcases List.mem_cons.mp hw with h1 | h2
      · subst h1
        have hfit : ¬ (cur ++ " " ++ w).length ≤ ms := by
          rw [strLen_append, strLen_append, strLen_space]
          omega
        simp only [chunkAux, if_neg hfit]
        exact List.mem_cons_of_mem _ (chunkAux_self_mem ms vs w hlen)
      · simp only [chunkAux]
        by_cases hfit : (cur ++ " " ++ v).length ≤ ms
        · rw [if_pos hfit]
          exact ih _ w h2 hlen
        · rw [if_neg hfit]
          exact List.mem_cons_of_mem _ (ih _ w h2 hlen)


theorem mem_insertDesc (p a : String × Nat) :
    ∀ (l : List (String × Nat)), a ∈ insertDesc p l ↔ a = p ∨ a ∈ l := by
  intro l
  induction l with
  | nil => simp [insertDesc]
  | cons q qs ih =>
      simp only [insertDesc]
      by_cases h : q.2 ≤ p.2
      · simp [h, List.mem_cons]
      · simp only [h, if_false, List.mem_cons, ih]
        tauto

theorem sortByScoreDesc_cons (p : String × Nat) (l : List (String × Nat)) :
    sortByScoreDesc (p :: l) = insertDesc p (sortByScoreDesc l) := rfl

theorem mem_sortByScoreDesc (a : String × Nat) :
    ∀ (l : List (String × Nat)), a ∈ sortByScoreDesc l ↔ a ∈ l := by
  intro l
  induction l with
  | nil => rfl
  | cons q qs ih =>
      rw [sortByScoreDesc_cons, mem_insertDesc, ih, List.mem_cons]

theorem pairwise_insertDesc (p : String × Nat) :
    ∀ (l : List (String × Nat)),
    l.Pairwise (fun a b => b.2 ≤ a.2) →
    (insertDesc p l).Pairwise (fun a b => b.2 ≤ a.2) := by
  intro l
  induction l with
  | nil => intro _; simp [insertDesc]
  | cons q qs ih =>
      intro h
      rcases List.pairwise_cons.mp h with ⟨hq, hqs⟩
      simp only [insertDesc]
      by_cases hle : q.2 ≤ p.2
      · rw [if_pos hle]
        refine List.pairwise_cons.mpr ⟨?_, h⟩
        intro b hb
        rcases List.mem_cons.mp hb with h1 | h2
        · subst h1; exact hle
        · exact le_trans (hq b h2) hle
      · rw [if_neg hle]
        refine List.pairwise_cons.mpr ⟨?_, ih hqs⟩
        intro b hb
        rcases (mem_insertDesc p b qs).mp hb with h1 | h2
        · subst h1
          omega
        · exact hq b h2

theorem pairwise_sortByScoreDesc :
    ∀ (l : List (String × Nat)),
    (sortByScoreDesc l).Pairwise (fun a b => b.2 ≤ a.2) := by
  intro l
  induction l with
  | nil => simp [sortByScoreDesc]
  | cons q qs ih =>
      rw [sortByScoreDesc_cons]
      exact pairwise_insertDesc q _ ih

theorem insertDesc_filter_score (p : String × Nat) (s : Nat) :
    ∀ (l : List (String × Nat)),
    (insertDesc p l).filter (fun q => q.2 == s) =
      if p.2 = s then p :: l.filter (fun q => q.2 == s)
      else l.filter (fun q => q.2 == s) := by
  intro l
  induction l with
  | nil =>
      by_cases h : p.2 = s <;> simp [insertDesc, List.filter_cons, h]
  | cons q qs ih =>
      simp only [insertDesc]
      by_cases hle : q.2 ≤ p.2
      · rw [if_pos hle]
        by_cases hp : p.2 = s <;> simp [List.filter_cons, hp]
      · rw [if_neg hle]
        by_cases hp : p.2 = s
        · have hq : ¬ q.2 = s := by omega
          simp [List.filter_cons, hq, ih, hp]
        · by_cases hq : q.2 = s <;> simp [List.filter_cons, hq, ih, hp]

theorem sortByScoreDesc_filter_score (s : Nat) :
    ∀ (l : List (String × Nat)),
    (sortByScoreDesc l).filter (fun q => q.2 == s) =
      l.filter (fun q => q.2 == s) := by
  intro l
  induction l with
  | nil => rfl
  | cons q qs ih =>
      rw [sortByScoreDesc_cons, insertDesc_filter_score]
      by_cases hq : q.2 = s <;> simp [List.filter_cons, hq, ih]

theorem filter_take_front (l : List (String × Nat)) (n : Nat)
    (P : String × Nat → Bool) :
    (l.filter P).take (((l.take n).filter P).length) = (l.take n).filter P := by
  have h1 : l.filter P = (l.take n).filter P ++ (l.drop n).filter P := by
    rw [← List.filter_append, List.take_append_drop]
  rw [h1, List.take_left]


theorem loadPDF_sessions (corpus : Option String) (st : ServerState) :
    (loadPDF corpus st).1.sessions = st.sessions := by
  rcases st with ⟨pt, pc, ss⟩
  cases pt with
  | none => cases corpus <;> rfl
  | some t =>
      by_cases h : t = ""
      · cases corpus <;> simp [loadPDF, loadPDFCore, h]
      · simp [loadPDF, loadPDFCore, h]

theorem buildPrompt_sessions (corpus : Option String) (st : ServerState)
    (req : ChatRequest) : (buildPrompt corpus st req).1.sessions = st.sessions := by
  unfold buildPrompt
  cases h : effectiveUseRAG req <;> simp [h, loadPDF_sessions]

theorem retrieveRelevantContent_nil (query : String) :
    retrieveRelevantContent query [] = [] := by
  unfold retrieveRelevantContent
  by_cases h : (normalizeQuery query).isEmpty
  · simp [h]
  · simp [h, retrieveScored, scoredChunks, sortByScoreDesc]

theorem loadPDF_none_fresh (st : ServerState) (h : st.pdfText = none) :
    loadPDF none st = (st, "PDF not found.") := by
  unfold loadPDF
  rw [h]
  rfl

theorem filter_score_pos (s : Nat) (hs : 0 < s) :
    ∀ (l : List (String × Nat)),
    (l.filter (fun p => decide (0 < p.2))).filter (fun p => p.2 == s) =
      l.filter (fun p => p.2 == s) := by
  intro l
  induction l with
  | nil => rfl
  | cons q qs ih =>
      simp only [List.filter_cons]
      by_cases h : q.2 = s
      · have hq : 0 < q.2 := by omega
        simp [h, hq, hs, List.filter_cons, ih]
      · by_cases h2 : 0 < q.2 <;> simp [h, h2, List.filter_cons, ih]


set_option maxRecDepth 8192

/-- C1: the claim asks that the score of a chunk be the sum of
case-insensitive literal-substring occurrence counts of the terms, with
terms never interpreted as a pattern language.  The source instead
compiles each term into `new RegExp(term, 'gi')` (server.js line 564),
so a term carrying a regex metacharacter is interpreted as a pattern:
for the chunk `"bc"` and the term `"a*bc"` the source's regex matches
`"bc"` once (score 1), while the literal-substring count stated by the
claim — computed here — is 0. -/
theorem C1_literal_score_at_failing_input :
    scoreChunk "bc" ["a*bc"] = 0 ∧ countOccur "bc" "a*bc" = 0 :=
  ⟨by decide, by decide⟩

/-- C2 (counterexample): the claim says every returned term has length
greater than 3 after punctuation stripping; the source filters on the raw
token length before stripping, so the query `"ab..."` yields the term
`"ab"` of length 2. -/
theorem C2_counterexample :
    normalizeQuery "ab..." = ["ab"] ∧ ("ab" : String).length ≤ 3 :=
  ⟨by decide, by decide⟩

/-- C2 (amended): `normalize` lower-cases, splits on whitespace, discards
tokens whose raw length is ≤ 3, then strips punctuation; every returned
term is the punctuation-stripped form of a token of raw length > 3 and
contains no punctuation character, but its own length may be ≤ 3. -/
theorem C2_normalize_amended (q t : String) (ht : t ∈ normalizeQuery q) :
    (∃ raw, raw ∈ jsSplitWs (jsToLower q) ∧ 3 < raw.length ∧
      t = stripPunct raw) ∧
    ∀ c ∈ t.data, isPunct c = false := by
  unfold normalizeQuery at ht
  rcases List.mem_map.mp ht with ⟨raw, hraw, hstrip⟩
  rcases List.mem_filter.mp hraw with ⟨hmem, hlen⟩
  refine ⟨⟨raw, hmem, by simpa using hlen, hstrip.symm⟩, ?_⟩
  intro c hc
  rw [← hstrip] at hc
  have : c ∈ raw.data.filter (fun c => !isPunct c) := hc
  have h2 := (List.mem_filter.mp this).2
  simpa using h2

theorem C2_normalize_amended_witness :
    "hello" ∈ normalizeQuery "Hello." ∧
    ((∃ raw, raw ∈ jsSplitWs (jsToLower "Hello.") ∧ 3 < raw.length ∧
        "hello" = stripPunct raw) ∧
      ∀ c ∈ ("hello" : String).data, isPunct c = false) :=
  ⟨by decide, C2_normalize_amended "Hello." "hello" (by decide)⟩

/-- C3: for every text and `maxSize > 0`, joining the produced chunks
with single spaces reconstructs exactly the whitespace-delimited word
sequence of the original text. -/
theorem C3_chunks_preserve_words (text : String) (maxSize : Nat)
    (_hms : 0 < maxSize) :
    wordsOf (joinSp (chunk text maxSize)) = wordsOf text := by
  unfold chunk
  rw [wordsOf_joinSp, chunkAux_wordsOf, wordsOf_empty, List.nil_append,
    flatten_wordsOf_jsSplitWs]

theorem C3_chunks_preserve_words_witness :
    0 < 5 ∧ wordsOf (joinSp (chunk "hello world" 5)) = wordsOf "hello world" :=
  ⟨by decide, C3_chunks_preserve_words "hello world" 5 (by decide)⟩

/-- C4: every chunk either fits in `maxSize` or is a single
(whitespace-delimited) word of the text longer than `maxSize`; and every
word longer than `maxSize` still forms its own chunk. -/
theorem C4_chunk_size_bound (text : String) (maxSize : Nat)
    (_hms : 0 < maxSize) :
    (∀ c ∈ chunk text maxSize,
        c.length ≤ maxSize ∨ (c ∈ jsSplitWs text ∧ maxSize < c.length)) ∧
    (∀ w ∈ jsSplitWs text, maxSize < w.length → w ∈ chunk text maxSize) := by
  constructor
  · intro c hc
    rcases chunkAux_mem_cases maxSize (jsSplitWs text) "" c hc with h1 | h2 | h3
    · subst h1
      left
      simp [show ("" : String).length = 0 from rfl]
    · by_cases hl : c.length ≤ maxSize
      · exact Or.inl hl
      · exact Or.inr ⟨h2, by omega⟩
    · exact Or.inl h3
  · intro w hw hlen
    exact chunkAux_overlong_mem maxSize (jsSplitWs text) "" w hw hlen

theorem C4_chunk_size_bound_witness :
    0 < 5 ∧
    ((∀ c ∈ chunk "aa xxxxxxx" 5,
        c.length ≤ 5 ∨ (c ∈ jsSplitWs "aa xxxxxxx" ∧ 5 < c.length)) ∧
      (∀ w ∈ jsSplitWs "aa xxxxxxx", 5 < w.length →
        w ∈ chunk "aa xxxxxxx" 5)) :=
  ⟨by decide, C4_chunk_size_bound "aa xxxxxxx" 5 (by decide)⟩

/-- C5: retrieval returns at most 3 scored chunks, none with score 0,
scores non-increasing in output order, and for every positive score `s`
the output's score-`s` chunks are an initial segment (in original chunk
order) of the input's score-`s` chunks: the sort is stable and ties keep
original order. -/
theorem C5_retrieve_properties (terms chunks : List String) (s : Nat)
    (hs : 0 < s) :
    (retrieveScored terms chunks).length ≤ 3 ∧
    (∀ p ∈ retrieveScored terms chunks, 0 < p.2) ∧
    (retrieveScored terms chunks).Pairwise (fun a b => b.2 ≤ a.2) ∧
    ((scoredChunks terms chunks).filter (fun p => p.2 == s)).take
        (((retrieveScored terms chunks).filter (fun p => p.2 == s)).length) =
      (retrieveScored terms chunks).filter (fun p => p.2 == s) := by
  refine ⟨?_, ?_, ?_, ?_⟩
  · unfold retrieveScored
    simp [List.length_take]
  · intro p hp
    unfold retrieveScored at hp
    have h1 := List.mem_of_mem_take hp
    have h2 := (mem_sortByScoreDesc p _).mp h1
    have h3 := List.mem_filter.mp h2
    simpa using h3.2
  · exact List.Pairwise.sublist (List.take_sublist 3 _)
      (pairwise_sortByScoreDesc _)
  · have e1 : (scoredChunks terms chunks).filter (fun p => p.2 == s) =
        (sortByScoreDesc ((scoredChunks terms chunks).filter
          (fun p => decide (0 < p.2)))).filter (fun p => p.2 == s) := by
      rw [sortByScoreDesc_filter_score, filter_score_pos s hs]
    unfold retrieveScored
    rw [e1]
    exact filter_take_front _ 3 _

theorem C5_retrieve_properties_witness :
    0 < 1 ∧
    ((retrieveScored ["alpha"] ["alpha beta", "gamma", "alpha alpha"]).length ≤ 3 ∧
      (∀ p ∈ retrieveScored ["alpha"] ["alpha beta", "gamma", "alpha alpha"],
        0 < p.2) ∧
      (retrieveScored ["alpha"] ["alpha beta", "gamma", "alpha alpha"]).Pairwise
        (fun a b => b.2 ≤ a.2) ∧
      ((scoredChunks ["alpha"] ["alpha beta", "gamma", "alpha alpha"]).filter
          (fun p => p.2 == 1)).take
          (((retrieveScored ["alpha"] ["alpha beta", "gamma", "alpha alpha"]).filter
            (fun p => p.2 == 1)).length) =
        (retrieveScored ["alpha"] ["alpha beta", "gamma", "alpha alpha"]).filter
          (fun p => p.2 == 1)) :=
  ⟨by decide,
    C5_retrieve_properties ["alpha"] ["alpha beta", "gamma", "alpha alpha"] 1
      (by decide)⟩


/-- C6 (counterexample): reading "terms" as the spec defines them (the
normalized, punctuation-stripped tokens), the query `"a...."` has the
single term `"a"` of length 1 ≤ 3, yet retrieval is non-empty: the raw
token `"a...."` has length 5 > 3, so it survives the source's length
filter, is stripped to `"a"`, and scores against the chunk `"xaxx"`. -/
theorem C6_counterexample :
    normalizeQuery "a...." = ["a"] ∧ ("a" : String).length ≤ 3 ∧
    retrieveRelevantContent "a...." ["xaxx"] = ["xaxx"] :=
  ⟨by decide, by decide, by decide⟩

/-- C6 (amended): for every query all of whose raw whitespace tokens (of
the lower-cased query, measured before punctuation stripping) have length
≤ 3, and for every query that normalizes to zero terms, retrieval
returns the empty list whatever the chunks are. -/
theorem C6_short_query_empty (query : String) (chunks : List String)
    (h : (∀ t ∈ jsSplitWs (jsToLower query), t.length ≤ 3) ∨
      normalizeQuery query = []) :
    retrieveRelevantContent query chunks = [] := by
  have hterms : normalizeQuery query = [] := by
    rcases h with h | h
    · unfold normalizeQuery
      rw [List.filter_eq_nil_iff.mpr ?_]
      · rfl
      · intro t ht
        simpa using Nat.not_lt.mpr (h t ht)
    · exact h
  simp [retrieveRelevantContent, hterms]

theorem C6_short_query_empty_witness :
    ((∀ t ∈ jsSplitWs (jsToLower "to be or"), t.length ≤ 3) ∨
      normalizeQuery "to be or" = []) ∧
    retrieveRelevantContent "to be or" ["whatever text"] = [] :=
  ⟨Or.inl (by decide),
    C6_short_query_empty "to be or" ["whatever text"] (Or.inl (by decide))⟩

/-- C7: with the corpus missing (`none`) and RAG requested, the request
still succeeds: retrieval yields no sources, the reported sources are
empty, and the system message is the no-relevant-information variant. -/
theorem C7_missing_corpus (st : ServerState) (req : ChatRequest)
    (reply : String) (hText : st.pdfText = none) (hChunks : st.pdfChunks = [])
    (hRag : req.useRAG = some true) :
    (buildPrompt none st req).2.2 = [] ∧
    (buildPrompt none st req).2.1.head? =
      some ⟨"system", noRelevantInfoContent⟩ ∧
    (chatHandler none (fun _ => ModelResult.ok reply) st req).status = 200 ∧
    (chatHandler none (fun _ => ModelResult.ok reply) st req).sources = [] := by
  have hRag' : effectiveUseRAG req = true := by
    simp [effectiveUseRAG, hRag]
  have hload : (loadPDF none st).1 = st := by
    rw [loadPDF_none_fresh st hText]
  have hbp : buildPrompt none st req =
      (st, systemMessageFor true [] ::
        (getHistory st.sessions (effectiveSessionId req) ++
          [⟨"user", req.message⟩]), []) := by
    unfold buildPrompt
    rw [hRag']
    simp only [if_true, hload, hChunks, retrieveRelevantContent_nil]
  refine ⟨by rw [hbp], by rw [hbp]; rfl, ?_, ?_⟩
  · unfold chatHandler
    rw [hbp]
  · unfold chatHandler
    rw [hbp]

theorem C7_missing_corpus_witness :
    initState.pdfText = none ∧ initState.pdfChunks = [] ∧
    (ChatRequest.mk "any question" (some true) none).useRAG = some true ∧
    ((buildPrompt none initState ⟨"any question", some true, none⟩).2.2 = [] ∧
      (buildPrompt none initState ⟨"any question", some true, none⟩).2.1.head? =
        some ⟨"system", noRelevantInfoContent⟩ ∧
      (chatHandler none (fun _ => ModelResult.ok "hi") initState
        ⟨"any question", some true, none⟩).status = 200 ∧
      (chatHandler none (fun _ => ModelResult.ok "hi") initState
        ⟨"any question", some true, none⟩).sources = []) :=
  ⟨rfl, rfl, rfl,
    C7_missing_corpus initState ⟨"any question", some true, none⟩ "hi" rfl rfl rfl⟩

/-- C8: when the model invocation fails, the handler leaves the session
store — and hence every session's history — exactly as it was before the
call; turns are appended only on the success path. -/
theorem C8_failed_call_history (corpus : Option String)
    (invoke : List ChatMessage → ModelResult) (st : ServerState)
    (req : ChatRequest) (e : String)
    (hFail : invoke (buildPrompt corpus st req).2.1 = ModelResult.err e) :
    (chatHandler corpus invoke st req).state.sessions = st.sessions ∧
    ∀ sid, getHistory (chatHandler corpus invoke st req).state.sessions sid =
      getHistory st.sessions sid := by
  have h : (chatHandler corpus invoke st req).state =
      (buildPrompt corpus st req).1 := by
    unfold chatHandler
    simp only [hFail]
  refine ⟨?_, ?_⟩
  · rw [h, buildPrompt_sessions]
  · intro sid
    rw [h, buildPrompt_sessions]

theorem C8_failed_call_history_witness :
    (fun _ : List ChatMessage => ModelResult.err "boom")
        (buildPrompt none initState ⟨"hi there", none, some "s1"⟩).2.1 =
      ModelResult.err "boom" ∧
    ((chatHandler none (fun _ => ModelResult.err "boom") initState
        ⟨"hi there", none, some "s1"⟩).state.sessions = initState.sessions ∧
      ∀ sid, getHistory (chatHandler none (fun _ => ModelResult.err "boom")
          initState ⟨"hi there", none, some "s1"⟩).state.sessions sid =
        getHistory initState.sessions sid) :=
  ⟨rfl, C8_failed_call_history none (fun _ => ModelResult.err "boom") initState
    ⟨"hi there", none, some "s1"⟩ "boom" rfl⟩

/-- C9: the message list is exactly the system message, then the prior
history of the session, then the new user message; and the reported
sources are the retrieved chunk texts when RAG is on and empty when it is
off. -/
theorem C9_message_order (corpus : Option String) (st : ServerState)
    (q sid : String) (b : Bool) (hsid : sid ≠ "") :
    (buildPrompt corpus st ⟨q, some b, some sid⟩).2.1 =
      systemMessageFor b (buildPrompt corpus st ⟨q, some b, some sid⟩).2.2 ::
        (getHistory st.sessions sid ++ [⟨"user", q⟩]) ∧
    (buildPrompt corpus st ⟨q, some b, some sid⟩).2.2 =
      (if b then
        retrieveRelevantContent q
          (buildPrompt corpus st ⟨q, some b, some sid⟩).1.pdfChunks
      else []) := by
  have hsid' : effectiveSessionId ⟨q, some b, some sid⟩ = sid := by
    simp [effectiveSessionId, hsid]
  have hrag : effectiveUseRAG ⟨q, some b, some sid⟩ = b := rfl
  cases b <;> constructor <;> simp [buildPrompt, hsid', hrag]

theorem C9_message_order_witness :
    ("s1" : String) ≠ "" ∧
    ((buildPrompt none initState ⟨"hi", some true, some "s1"⟩).2.1 =
      systemMessageFor true
          (buildPrompt none initState ⟨"hi", some true, some "s1"⟩).2.2 ::
        (getHistory initState.sessions "s1" ++ [⟨"user", "hi"⟩]) ∧
    (buildPrompt none initState ⟨"hi", some true, some "s1"⟩).2.2 =
      (if true then
        retrieveRelevantContent "hi"
          (buildPrompt none initState ⟨"hi", some true, some "s1"⟩).1.pdfChunks
      else [])) :=
  ⟨by decide, C9_message_order none initState "hi" "s1" true (by decide)⟩

/-- C10: when the request omits `useRAG` entirely, the handler behaves
exactly as if it were `true`: the built prompt, the reported sources and
the whole outcome coincide. -/
theorem C10_useRAG_defaults_true (corpus : Option String)
    (invoke : List ChatMessage → ModelResult) (st : ServerState)
    (q : String) (sid : Option String) :
    buildPrompt corpus st ⟨q, none, sid⟩ =
      buildPrompt corpus st ⟨q, some true, sid⟩ ∧
    chatHandler corpus invoke st ⟨q, none, sid⟩ =
      chatHandler corpus invoke st ⟨q, some true, sid⟩ :=
  ⟨rfl, rfl⟩
